import Mathlib

/-!
Verification of gpu_monitor.py: a fleet GPU poller.

The embedding models the Python source shallowly:
* `J` is the dynamic value universe produced by `etree_to_dict`
  (Python dicts become ordered association lists, lists become `J.arr`,
  strings `J.str`, and `None` becomes `J.null`).
* Python subscripting, `len`, iteration, `str.split`, `int(...)` and set
  insertion are modelled by the `py*` helpers below; each raises the same
  class of exception the CPython runtime raises, modelled as
  `Except String` with the exception name as the message.
* `do_cmd`, `usernames_from_pids`, `get_host_gpu_info` and the
  `ThreadPoolExecutor.map` fleet loop are translated line by line.
  External effects (the ssh round trip and `xml.etree` parsing) are
  supplied by an environment: `CmdOutcome` is what the spawned process
  did, and `HostEnv.parsed` is the `etree_to_dict` image of the parsed
  XML root for the device query (the XML parser itself is Python stdlib
  and out of scope; `etree_to_dict` is modelled and verified separately).
* CPython set iteration order is modelled as insertion order; no theorem
  below depends on the particular order, only on positional pairing with
  whatever order was used.
-/

/-- Dynamic values: the image of `etree_to_dict` and the shapes the
extraction code manipulates.  Python dicts are ordered key/value lists. -/
inductive J where
  | null : J
  | str (s : String) : J
  | arr (xs : List J) : J
  | obj (fields : List (String × J)) : J
deriving Repr

mutual

def J.beq : J → J → Bool
  | .null, .null => true
  | .str a, .str b => a == b
  | .arr xs, .arr ys => J.beqList xs ys
  | .obj xs, .obj ys => J.beqFields xs ys
  | _, _ => false

def J.beqList : List J → List J → Bool
  | [], [] => true
  | x :: xs, y :: ys => J.beq x y && J.beqList xs ys
  | _, _ => false

def J.beqFields : List (String × J) → List (String × J) → Bool
  | [], [] => true
  | (k, v) :: xs, (l, w) :: ys => k == l && J.beq v w && J.beqFields xs ys
  | _, _ => false

end

mutual

theorem J.beq_iff : ∀ a b : J, J.beq a b = true ↔ a = b
  | .null, .null => by simp [J.beq]
  | .null, .str _ | .null, .arr _ | .null, .obj _ => by simp [J.beq]
  | .str _, .null | .str _, .arr _ | .str _, .obj _ => by simp [J.beq]
  | .arr _, .null | .arr _, .str _ | .arr _, .obj _ => by simp [J.beq]
  | .obj _, .null | .obj _, .str _ | .obj _, .arr _ => by simp [J.beq]
  | .str a, .str b => by simp [J.beq]
  | .arr xs, .arr ys => by
      simp only [J.beq, J.arr.injEq]
      exact J.beqList_iff xs ys
  | .obj xs, .obj ys => by
      simp only [J.beq, J.obj.injEq]
      exact J.beqFields_iff xs ys

theorem J.beqList_iff : ∀ xs ys : List J, J.beqList xs ys = true ↔ xs = ys
  | [], [] => by simp [J.beqList]
  | [], _ :: _ => by simp [J.beqList]
  | _ :: _, [] => by simp [J.beqList]
  | x :: xs, y :: ys => by
      simp only [J.beqList, Bool.and_eq_true, List.cons.injEq]
      exact and_congr (J.beq_iff x y) (J.beqList_iff xs ys)

theorem J.beqFields_iff :
    ∀ xs ys : List (String × J), J.beqFields xs ys = true ↔ xs = ys
  | [], [] => by simp [J.beqFields]
  | [], _ :: _ => by simp [J.beqFields]
  | _ :: _, [] => by simp [J.beqFields]
  | (k, v) :: xs, (l, w) :: ys => by
      simp only [J.beqFields, Bool.and_eq_true, List.cons.injEq, Prod.mk.injEq,
        beq_iff_eq, J.beq_iff v w, J.beqFields_iff xs ys]

end

instance : DecidableEq J := fun a b =>
  decidable_of_iff (J.beq a b = true) (J.beq_iff a b)

/-- Python `d[k]` on an arbitrary value with a string key.  Non-dicts raise
`TypeError`; a missing key raises `KeyError`. -/
def pySub : J → String → Except String J
  | .obj fs, k =>
    match fs.lookup k with
    | some v => .ok v
    | none => .error "KeyError"
  | .str _, _ => .error "TypeError"
  | .arr _, _ => .error "TypeError"
  | .null, _ => .error "TypeError"

/-- Python `x[i]` with an int index.  Indexing a dict with an int raises
`KeyError` (our dict keys are strings); indexing `None` raises `TypeError`. -/
def pyIndex : J → Nat → Except String J
  | .arr xs, i =>
    match xs.get? i with
    | some v => .ok v
    | none => .error "IndexError"
  | .obj _, _ => .error "KeyError"
  | .str s, i =>
    match s.data.get? i with
    | some c => .ok (.str (String.mk [c]))
    | none => .error "IndexError"
  | .null, _ => .error "TypeError"

/-- Python `len(x)`; `len(None)` raises `TypeError`. -/
def pyLen : J → Except String Nat
  | .str s => .ok s.length
  | .arr xs => .ok xs.length
  | .obj fs => .ok fs.length
  | .null => .error "TypeError"

/-- Python `for x in v`: lists yield elements, dicts yield their keys,
strings yield one-character strings, `None` raises `TypeError`. -/
def pyIter : J → Except String (List J)
  | .arr xs => .ok xs
  | .obj fs => .ok (fs.map fun kv => .str kv.1)
  | .str s => .ok (s.data.map fun c => .str (String.mk [c]))
  | .null => .error "TypeError"

/-- Python `d.items()`; anything but a dict raises `AttributeError`. -/
def pyItems : J → Except String (List (String × J))
  | .obj fs => .ok fs
  | _ => .error "AttributeError"

/-- The values of a dict (`d.values()`); `[]` on non-dicts (unreachable in
the translated code, which only calls it after a successful dict access). -/
def objValuesOf : J → List J
  | .obj fs => fs.map (·.2)
  | _ => []

def J.isObj : J → Bool
  | .obj _ => true
  | _ => false

/-- Python dict item assignment `d[k] = v` where the key is known to be
present: the value is replaced in place, preserving key order. -/
def objSet : J → String → J → J
  | .obj fs, k, v => .obj (fs.map fun kv => if kv.1 = k then (k, v) else kv)
  | j, _, _ => j

/-- Splits a character list at every separator character, keeping empty
pieces, like Python `str.split(sep)` with an explicit separator. -/
def splitChSep (sep : Char) : List Char → List (List Char)
  | [] => [[]]
  | c :: cs =>
    match splitChSep sep cs with
    | [] => if c = sep then [[], [c]] else [[c]]
    | g :: gs => if c = sep then [] :: g :: gs else (c :: g) :: gs

/-- Python `s.split("\n")` (or any one-character separator). -/
def pySplit (sep : Char) (s : String) : List String :=
  (splitChSep sep s.data).map String.mk

/-- Greedy whitespace run splitter for Python `s.split()` (no argument):
splits on runs of whitespace and drops empty pieces. -/
def splitChWs : List Char → List (List Char)
  | [] => [[]]
  | c :: cs =>
    match splitChWs cs with
    | [] => if c.isWhitespace then [[], [c]] else [[c]]
    | g :: gs => if c.isWhitespace then [] :: g :: gs else (c :: g) :: gs

/-- Python `s.split()`: whitespace runs separate tokens, no empty tokens. -/
def pySplitWs (s : String) : List String :=
  ((splitChWs s.data).filter (· ≠ [])).map String.mk

/-- Python `s.strip()`: drop leading and trailing whitespace. -/
def pyStrip (s : String) : String :=
  String.mk
    (((s.data.dropWhile (·.isWhitespace)).reverse.dropWhile
      (·.isWhitespace)).reverse)

def digitsToNat : List Char → Option Nat
  | [] => none
  | ds =>
    if ds.all (·.isDigit) then
      some (ds.foldl (fun acc c => acc * 10 + (c.toNat - 48)) 0)
    else none

/-- Python `int(s)`: optional sign, decimal digits, surrounding whitespace
tolerated; anything else raises `ValueError`. -/
def pyToInt (s : String) : Except String Int :=
  match (pyStrip s).data with
  | '-' :: ds =>
    match digitsToNat ds with
    | some n => .ok (-(n : Int))
    | none => .error "ValueError"
  | '+' :: ds =>
    match digitsToNat ds with
    | some n => .ok (n : Int)
    | none => .error "ValueError"
  | ds =>
    match digitsToNat ds with
    | some n => .ok (n : Int)
    | none => .error "ValueError"

/-- `int(value.split()[0])` applied to a dynamic value: `.split` on a
non-string raises `AttributeError`, `[0]` of no tokens raises `IndexError`,
a non-numeric token raises `ValueError`. -/
def pyIntLeading : J → Except String Int
  | .str s =>
    match pySplitWs s with
    | [] => .error "IndexError"
    | t :: _ => pyToInt t
  | _ => .error "AttributeError"

/-- Python `str(x)` as used in the f-string `f"cuda:{...}"`.  In every run
the interpolated value is the text of `<minor_number>`, i.e. a string; the
renderings of the other shapes are placeholders never exercised by the
theorems below. -/
def pyStr : J → String
  | .str s => s
  | .null => "None"
  | .arr _ => "<list>"
  | .obj _ => "<dict>"

/-- Python `set.add`: lists and dicts are unhashable. -/
def pyHashable : J → Bool
  | .arr _ => false
  | .obj _ => false
  | _ => true

/-- Set insertion, iteration order modelled as insertion order. -/
def setAdd (s : List J) (x : J) : Except String (List J) :=
  if pyHashable x then .ok (if x ∈ s then s else s ++ [x])
  else .error "TypeError"

/-! ## Remote Executor (`do_cmd`, source lines 146-160) -/

/-- What the spawned process did, as observed by `subprocess.check_output`
(which captures stdout and stderr combined, since the call passes
`stderr=subprocess.STDOUT`): it either ran to completion with an exit code
and its combined output, or outlived the timeout. -/
inductive CmdOutcome where
  | completed (exitCode : Nat) (output : String) : CmdOutcome
  | timedOut : CmdOutcome
deriving Repr, DecidableEq

/-- `subprocess.check_output(cmd, stderr=STDOUT, timeout=...)`: returns the
combined output on exit code 0, raises `CalledProcessError` on a non-zero
exit (the partial output lives only on the exception object, which the
caller ignores), raises `TimeoutExpired` on timeout. -/
def check_output : CmdOutcome → Except String String
  | .completed 0 out => .ok out
  | .completed _ _ => .error "CalledProcessError"
  | .timedOut => .error "TimeoutExpired"

/-- Source `do_cmd`: `ret, output = True, b''`, try `check_output`, catch
`CalledProcessError` and `TimeoutExpired` by setting `ret = False` (leaving
`output` at `b''`), return `(ret, output.decode())`. -/
def do_cmd (o : CmdOutcome) : Bool × String :=
  match check_output o with
  | .ok out => (true, out)
  | .error "CalledProcessError" => (false, "")
  | .error "TimeoutExpired" => (false, "")
  | .error _ => (false, "")

/-! ## Data extracted per host (`get_host_gpu_info`, source lines 53-115) -/

/-- One entry of `host_gpu_usage[device]["processes"]`: built at source
lines 98-101 with no `"user"` key; the key is added later (line 112) only
when owner resolution succeeded. -/
structure ProcessUsage where
  pid : J
  used_memory : Int
  user : Option String
deriving Repr, DecidableEq

/-- The value stored at `host_gpu_usage[device]` (source lines 80-86). -/
structure DeviceSnapshot where
  driver_version : J
  cuda_version : J
  memory : List (String × Int)
  processes : List ProcessUsage
deriving Repr, DecidableEq

/-- `host_gpu_usage`: an insertion-ordered dict keyed by device id. -/
abbrev Report := List (String × DeviceSnapshot)

/-- Python dict assignment `d[k] = v`: overwrite in place if the key is
present, else append. -/
def dinsertSnap (usage : Report) (k : String) (v : DeviceSnapshot) : Report :=
  match usage with
  | [] => [(k, v)]
  | (k0, v0) :: rest =>
    if k0 = k then (k0, v) :: rest else (k0, v0) :: dinsertSnap rest k v

/-- `host_gpu_usage[device]["processes"].append(p)` (source lines 98-101):
mutates the snapshot stored under `device` in place. -/
def appendProc (usage : Report) (device : String) (p : ProcessUsage) : Report :=
  usage.map fun e =>
    if e.1 = device then (e.1, { e.2 with processes := e.2.processes ++ [p] })
    else e

/-- `{key: int(value.split()[0]) for (key, value) in items}`
(source line 84); the comprehension raises on its first bad value. -/
def parseMemKVs : List (String × J) → Except String (List (String × Int))
  | [] => .ok []
  | (k, v) :: rest =>
    match pyIntLeading v with
    | .error e => .error e
    | .ok n =>
      match parseMemKVs rest with
      | .error e => .error e
      | .ok tl => .ok ((k, n) :: tl)

/-- The body of the inner process loop (source lines 96-101): add the pid
to `unique_pids`, then build and append the process record. -/
def procEntry (usage : Report) (pids : List J) (device : String)
    (process_info : J) : Except String (Report × List J) :=
  match pySub process_info "pid" with
  | .error e => .error e
  | .ok pid =>
    match setAdd pids pid with
    | .error e => .error e
    | .ok pids2 =>
      match pySub process_info "used_memory" with
      | .error e => .error e
      | .ok um =>
        match pyIntLeading um with
        | .error e => .error e
        | .ok n => .ok (appendProc usage device ⟨pid, n, none⟩, pids2)

/-- `for process_info in process_infos` (source line 96). -/
def procList (usage : Report) (pids : List J) (device : String) :
    List J → Except String (Report × List J)
  | [] => .ok (usage, pids)
  | p :: ps =>
    match procEntry usage pids device p with
    | .error e => .error e
    | .ok (u2, p2) => procList u2 p2 device ps

/-- `for process_infos in gpu_info["processes"].values()` (source line 95):
each dict value is itself iterated (lists yield their elements). -/
def procValues (usage : Report) (pids : List J) (device : String) :
    List J → Except String (Report × List J)
  | [] => .ok (usage, pids)
  | v :: vs =>
    match pyIter v with
    | .error e => .error e
    | .ok elems =>
      match procList usage pids device elems with
      | .error e => .error e
      | .ok (u2, p2) => procValues u2 p2 device vs

/-- One iteration of the device loop (source lines 77-101), in source
evaluation order: `minor_number`, the `f"cuda:{...}"` device id, the
snapshot dict literal (`driver_version`, `cuda_version`, the memory
comprehension), the dict assignment, the `processes` emptiness test, the
count-1 re-wrap of `process_info` (source lines 92-93), and the process
loops. -/
def extractOne (gd : J) (usage : Report) (pids : List J) (gpu_info : J) :
    Except String (Report × List J) :=
  match pySub gpu_info "minor_number" with
  | .error e => .error e
  | .ok minor =>
    let device := "cuda:" ++ pyStr minor
    match pySub gd "driver_version" with
    | .error e => .error e
    | .ok dv =>
      match pySub gd "cuda_version" with
      | .error e => .error e
      | .ok cv =>
        match pySub gpu_info "fb_memory_usage" with
        | .error e => .error e
        | .ok fb =>
          match pyItems fb with
          | .error e => .error e
          | .ok items =>
            match parseMemKVs items with
            | .error e => .error e
            | .ok mem =>
              let usage2 := dinsertSnap usage device ⟨dv, cv, mem, []⟩
              match pySub gpu_info "processes" with
              | .error e => .error e
              | .ok procs =>
                match pyLen procs with
                | .error e => .error e
                | .ok n =>
                  if n = 0 then .ok (usage2, pids)
                  else
                    match pySub procs "process_info" with
                    | .error e => .error e
                    | .ok pi0 =>
                      let procs2 :=
                        if pi0.isObj then objSet procs "process_info" (.arr [pi0])
                        else procs
                      procValues usage2 pids device (objValuesOf procs2)

/-- `for gpu_idx in range(len(gpu_dict["gpu"]))` (source line 76): each
iteration re-reads `gpu_dict["gpu"][gpu_idx]`. -/
def extractDevices (gd gpus : J) :
    List Nat → Report → List J → Except String (Report × List J)
  | [], usage, pids => .ok (usage, pids)
  | i :: rest, usage, pids =>
    match pyIndex gpus i with
    | .error e => .error e
    | .ok gpu_info =>
      match extractOne gd usage pids gpu_info with
      | .error e => .error e
      | .ok (u2, p2) => extractDevices gd gpus rest u2 p2

/-- The extraction region of `get_host_gpu_info` (source lines 72-101),
starting from the already-normalized `gpu_dict`: returns
`(host_gpu_usage, unique_pids)` or the first uncaught exception. -/
def extractInfo (gd : J) : Except String (Report × List J) :=
  match pySub gd "gpu" with
  | .error e => .error e
  | .ok gpus =>
    match pyLen gpus with
    | .error e => .error e
    | .ok n => extractDevices gd gpus (List.range n) [] []

/-! ## Process-Owner Resolver (`usernames_from_pids`, source lines 38-50) -/

/-- Dict lookup used for `pid_user_dict[process["pid"]]`. -/
def lookupA (d : List (J × String)) (k : J) : Option String :=
  match d with
  | [] => none
  | (k0, v0) :: rest => if k0 = k then some v0 else lookupA rest k

/-- Python dict assignment on a `J`-keyed dict. -/
def dinsertA (d : List (J × String)) (k : J) (v : String) : List (J × String) :=
  match d with
  | [] => [(k, v)]
  | (k0, v0) :: rest =>
    if k0 = k then (k0, v) :: rest else (k0, v0) :: dinsertA rest k v

/-- `{pid: user for pid, user in pairs}`: later duplicates overwrite. -/
def pyDictOfPairs (pairs : List (J × String)) : List (J × String) :=
  pairs.foldl (fun m kv => dinsertA m kv.1 kv.2) []

/-- Source `usernames_from_pids`, with the ssh round trip for the batched
`ps -o user= -p <pid>` query supplied as a `CmdOutcome`: on executor
failure returns `(False, {})`; on success zips the requested pids
positionally with `users.split("\n")` (Python `zip` truncates to the
shorter sequence). -/
def usernames_from_pids (outcome : CmdOutcome) (pids : List J) :
    Bool × List (J × String) :=
  let r := do_cmd outcome
  if r.1 = false then (false, [])
  else (true, pyDictOfPairs (pids.zip (pySplit '\n' r.2)))

/-! ## Host Report Builder (`get_host_gpu_info`, source lines 103-115) -/

/-- The inner loop of source lines 110-112 over one device's processes:
`process["user"] = pid_user_dict[process["pid"]]` raises `KeyError` when
the pid is absent from the resolver's dict. -/
def attachProcs (d : List (J × String)) :
    List ProcessUsage → Except String (List ProcessUsage)
  | [] => .ok []
  | p :: ps =>
    match lookupA d p.pid with
    | none => .error "KeyError"
    | some u =>
      match attachProcs d ps with
      | .error e => .error e
      | .ok tl => .ok ({ p with user := some u } :: tl)

/-- Source lines 110-112: attach a username to every process of every
device. -/
def attachUsers (d : List (J × String)) : Report → Except String Report
  | [] => .ok []
  | (dev, snap) :: rest =>
    match attachProcs d snap.processes with
    | .error e => .error e
    | .ok ps =>
      match attachUsers d rest with
      | .error e => .error e
      | .ok tl => .ok ((dev, { snap with processes := ps }) :: tl)

/-- The external world for one host: what the `nvidia-smi -q -x` round
trip did, the `etree_to_dict` image of its parsed XML root when it
succeeded (XML parsing itself is Python stdlib and abstracted here), and
what the owner-resolution round trip does for a given requested pid list. -/
structure HostEnv where
  devCmd : CmdOutcome
  parsed : J
  ownerCmd : List J → CmdOutcome

/-- Source `get_host_gpu_info`: device query via `do_cmd` (failure returns
`{}`), normalization (`etree_to_dict(...)["nvidia_smi_log"]`), extraction,
the `unique_pids` short-circuit, owner resolution (failure returns the
report unchanged), and username attachment.  Uncaught exceptions surface
as `Except.error`. -/
def get_host_gpu_info (env : HostEnv) : Except String Report :=
  let r1 := do_cmd env.devCmd
  if r1.1 = false then .ok []
  else
    match pySub env.parsed "nvidia_smi_log" with
    | .error e => .error e
    | .ok gpu_dict =>
      match extractInfo gpu_dict with
      | .error e => .error e
      | .ok (usage, pids) =>
        if pids.length = 0 then .ok usage
        else
          let ru := usernames_from_pids (env.ownerCmd pids) pids
          if ru.1 = false then .ok usage
          else attachUsers ru.2 usage

/-! ## Fleet Poller (source lines 206-207) -/

/-- `list(executor.map(get_host_gpu_info, hosts))`:
`ThreadPoolExecutor.map` yields results in input order regardless of
completion order, and `list(...)` re-raises the first exception it meets
in that order, abandoning the remaining slots.  `maxWorkers` (the
`--max_workers` bound) does not influence the value. -/
def fleetPoll (maxWorkers : Nat) (hosts : List String)
    (env : String → HostEnv) : Except String (List Report) :=
  match hosts with
  | [] => .ok []
  | h :: rest =>
    match get_host_gpu_info (env h) with
    | .error e => .error e
    | .ok r =>
      match fleetPoll maxWorkers rest env with
      | .error e => .error e
      | .ok rs => .ok (r :: rs)

/-- `Except.isOk`. -/
def isOkE {α : Type} : Except String α → Bool
  | .ok _ => true
  | .error _ => false

/-- The payload of a successful result (`[]` for an error; used only under
an `isOkE` hypothesis). -/
def okValue : Except String Report → Report
  | .ok r => r
  | .error _ => []

/-! ## Concrete fixtures used by the claim theorems -/

/-- A realistic normalized record for one physical device (minor index 0),
with one running process (pid 101, 500 MiB). -/
def devRec0 : J := .obj [
  ("minor_number", .str "0"),
  ("fb_memory_usage", .obj [
    ("total", .str "8000 MiB"), ("used", .str "2000 MiB"),
    ("free", .str "6000 MiB")]),
  ("processes", .obj [("process_info", .obj [
    ("pid", .str "101"), ("used_memory", .str "500 MiB")])])]

/-- A second device (minor index 1), one process (pid 202, 1000 MiB). -/
def devRec1 : J := .obj [
  ("minor_number", .str "1"),
  ("fb_memory_usage", .obj [
    ("total", .str "8000 MiB"), ("used", .str "3000 MiB"),
    ("free", .str "5000 MiB")]),
  ("processes", .obj [("process_info", .obj [
    ("pid", .str "202"), ("used_memory", .str "1000 MiB")])])]

/-- A normalized `nvidia_smi_log` dict for a host with exactly one device:
the normalizer's count-1 collapse makes `"gpu"` a bare record. -/
def gdSingle : J := .obj [
  ("driver_version", .str "535.104.05"),
  ("cuda_version", .str "12.2"),
  ("gpu", devRec0)]

/-- The same host with the device collection re-wrapped to a one-element
list (what the claimed re-wrap would produce). -/
def gdSingleWrapped : J := .obj [
  ("driver_version", .str "535.104.05"),
  ("cuda_version", .str "12.2"),
  ("gpu", .arr [devRec0])]

/-- A two-device host: the normalizer yields a real list for `"gpu"`. -/
def gdTwo : J := .obj [
  ("driver_version", .str "535.104.05"),
  ("cuda_version", .str "12.2"),
  ("gpu", .arr [devRec0, devRec1])]

/-- A malformed device report: the device record lacks the expected
`minor_number` field. -/
def gdNoMinor : J := .obj [
  ("driver_version", .str "535.104.05"),
  ("cuda_version", .str "12.2"),
  ("gpu", .arr [.obj [
    ("fb_memory_usage", .obj [("total", .str "8000 MiB"),
      ("used", .str "2000 MiB"), ("free", .str "6000 MiB")]),
    ("processes", .str "")]])]

/-- A healthy host: two devices, owner query answers both pids. -/
def envGood : HostEnv := {
  devCmd := .completed 0 "<xml/>",
  parsed := .obj [("nvidia_smi_log", gdTwo)],
  ownerCmd := fun _ => .completed 0 "alice\nbob\n" }

/-- A host whose report has exactly one device (count-1 collapsed). -/
def envSingle : HostEnv := {
  devCmd := .completed 0 "<xml/>",
  parsed := .obj [("nvidia_smi_log", gdSingle)],
  ownerCmd := fun _ => .completed 0 "alice\n" }

/-- A host whose report lacks `minor_number`. -/
def envNoMinor : HostEnv := {
  devCmd := .completed 0 "<xml/>",
  parsed := .obj [("nvidia_smi_log", gdNoMinor)],
  ownerCmd := fun _ => .completed 0 "alice\n" }

/-- An unreachable host: the device query times out. -/
def envDown : HostEnv := {
  devCmd := .timedOut,
  parsed := .null,
  ownerCmd := fun _ => .timedOut }

/-- A healthy host whose owner query emits fewer lines than pids
requested (e.g. one of the two processes exited in between). -/
def envShortLines : HostEnv :=
  { envGood with ownerCmd := fun _ => .completed 0 "alice" }

/-- The extraction result for `gdSingleWrapped` / the first device of
`gdTwo`. -/
def snap0 : DeviceSnapshot := {
  driver_version := .str "535.104.05",
  cuda_version := .str "12.2",
  memory := [("total", 8000), ("used", 2000), ("free", 6000)],
  processes := [{ pid := .str "101", used_memory := 500, user := none }] }

/-- The extraction result for the second device of `gdTwo`. -/
def snap1 : DeviceSnapshot := {
  driver_version := .str "535.104.05",
  cuda_version := .str "12.2",
  memory := [("total", 8000), ("used", 3000), ("free", 5000)],
  processes := [{ pid := .str "202", used_memory := 1000, user := none }] }

/-- `get_host_gpu_info` on `envGood`: both users attached. -/
def reportGood : Report :=
  [("cuda:0", { snap0 with processes :=
      [{ pid := .str "101", used_memory := 500, user := some "alice" }] }),
   ("cuda:1", { snap1 with processes :=
      [{ pid := .str "202", used_memory := 1000, user := some "bob" }] })]

/-! ## Invariants of the extraction region -/

/-- What is true of every entry `host_gpu_usage[device]` while the
extraction loop runs: its version fields are the host-level
`gpu_dict["driver_version"]` / `gpu_dict["cuda_version"]` values, and none
of its processes carries a `"user"` key yet. -/
def GoodEntry (gd : J) (e : String × DeviceSnapshot) : Prop :=
  Except.ok e.2.driver_version = pySub gd "driver_version"
  ∧ Except.ok e.2.cuda_version = pySub gd "cuda_version"
  ∧ ∀ p ∈ e.2.processes, p.user = none

/-- A healthy host whose owner-resolution query times out. -/
def envOwnerDown : HostEnv :=
  { envGood with ownerCmd := fun _ => .timedOut }


/-! ## The Structured-Report Normalizer (`etree_to_dict`, source 118-143) -/

/-- An XML element as handed to `etree_to_dict`: tag name, attributes in
document order, optional text content, children in document order
(mirroring `xml.etree.ElementTree.Element`). -/
inductive Element where
  | mk (tag : String) (attrs : List (String × String)) (text : Option String)
      (children : List Element) : Element

def Element.tagOf : Element → String
  | .mk t _ _ _ => t

/-- Python truthiness of `t.text` (`None` and `""` are falsy). -/
def textTruthy : Option String → Bool
  | none => false
  | some s => s ≠ ""

/-- Python dict assignment `d[k] = v` on a dynamic dict: overwrite in
place when the key exists, else append. -/
def objAssign : J → String → J → J
  | .obj fs, k, v =>
    if (fs.lookup k).isSome then
      .obj (fs.map fun kv => if kv.1 = k then (k, v) else kv)
    else .obj (fs ++ [(k, v)])
  | j, _, _ => j

/-- Python `d.update(pairs)`: sequential dict assignments. -/
def objUpdate (d : J) (news : List (String × J)) : J :=
  news.foldl (fun acc kv => objAssign acc kv.1 kv.2) d

/-- `defaultdict(list)` accumulation `dd[k].append(v)` (source line 130):
append to the existing group, else open a new group at the end. -/
def dappend (m : List (String × List J)) (k : String) (v : J) :
    List (String × List J) :=
  match m with
  | [] => [(k, [v])]
  | (k0, vs) :: rest =>
    if k0 = k then (k0, vs ++ [v]) :: rest else (k0, vs) :: dappend rest k v

/-- The whole defaultdict pass over the child pairs (source lines 128-130). -/
def groupPairs (pairs : List (String × J)) : List (String × List J) :=
  pairs.foldl (fun m kv => dappend m kv.1 kv.2) []

/-- `v[0] if len(v) == 1 else v` (source line 131). -/
def collapse1 : List J → J
  | [v] => v
  | vs => .arr vs

instance : Inhabited J := ⟨.null⟩

/-- The dict comprehension of source lines 131-132. -/
def collapseGroups (m : List (String × List J)) : List (String × J) :=
  m.map fun g => (g.1, collapse1 g.2)

mutual

/-- The value stored under `d[t.tag]` by `etree_to_dict`, translated
line by line from source 124-143: start from `{}`/`None`, replace by the
grouped-children dict when children exist, merge `'@'`-prefixed
attributes via `update`, then handle stripped text (`'#text'` alongside
children/attributes, bare scalar for a pure text leaf). -/
def e2dVal : Element → J
  | .mk _ attrs text children =>
    let base : J := if attrs.isEmpty then .null else .obj []
    let d1 : J :=
      if children.isEmpty then base
      else .obj (collapseGroups (groupPairs (e2dChildren children)))
    let d2 : J :=
      if attrs.isEmpty then d1
      else objUpdate d1 (attrs.map fun kv => ("@" ++ kv.1, J.str kv.2))
    if textTruthy text then
      let txt := pyStrip (text.getD "")
      if !children.isEmpty || !attrs.isEmpty then
        if txt ≠ "" then objAssign d2 "#text" (.str txt) else d2
      else .str txt
    else d2

/-- `map(etree_to_dict, children)` flattened to (tag, value) pairs: each
child contributes its singleton dict `{c.tag: value}`. -/
def e2dChildren : List Element → List (String × J)
  | [] => []
  | c :: cs => (c.tagOf, e2dVal c) :: e2dChildren cs

end

/-- Source `etree_to_dict`: the returned singleton dict `{t.tag: value}`. -/
def etree_to_dict (t : Element) : J :=
  .obj [(t.tagOf, e2dVal t)]

/-! ### The specification-side normalizer (written from spec section 4.2) -/

/-- Modelled from the spec: group a list of (tag, normalized value) pairs
by tag name preserving first-seen order of distinct tags; each group
carries all values of that tag in order. -/
def grp : List (String × J) → List (String × List J)
  | [] => []
  | (k, v) :: ps =>
    (k, v :: (ps.filter fun q => q.1 = k).map Prod.snd) ::
      grp (ps.filter fun q => q.1 ≠ k)
termination_by l => l.length
decreasing_by
  simp only [List.length_cons]
  exact Nat.lt_succ_of_le (List.length_filter_le _ _)

/-- Modelled from the spec: the reserved-key entry carrying text content
that appears alongside attributes or children; empty when there is no
(non-whitespace) text. -/
def textPart (text : Option String) : List (String × J) :=
  match text with
  | some s =>
    if s ≠ "" ∧ pyStrip s ≠ "" then [("#text", J.str (pyStrip s))]
    else []
  | none => []

mutual

/-- Modelled from the spec (section 4.2): recursively normalize each
child; group by tag preserving first-seen order of distinct tags; a tag
seen exactly once maps to that child's normalized form, one seen more
than once to the ordered sequence of all forms; attributes merge in under
the distinguishing `'@'` prefix; leaf text (no children, no attributes)
is a plain scalar string; text alongside children/attributes is kept
under the reserved `'#text'` key. -/
def specVal : Element → J
  | .mk _ attrs text children =>
    if children.isEmpty && attrs.isEmpty then
      match text with
      | some s => if s ≠ "" then .str (pyStrip s) else .null
      | none => .null
    else
      let grouped := (grp (specChildren children)).map fun g =>
        (g.1, if g.2.length = 1 then g.2.headI else J.arr g.2)
      .obj (grouped
        ++ attrs.map (fun kv => ("@" ++ kv.1, J.str kv.2))
        ++ textPart text)

/-- Modelled from the spec: the recursively-normalized children as
(tag, value) pairs in document order. -/
def specChildren : List Element → List (String × J)
  | [] => []
  | c :: cs => (c.tagOf, specVal c) :: specChildren cs

end

/-- Well-formedness of what the XML parser can actually produce: attribute
names of one element are distinct (Python stores them in a dict), and tag
names neither start with `'@'` nor equal `'#text'` (both impossible for
XML names, which cannot contain `'@'`/`'#'`). -/
def nodupKeys : List (String × String) → Bool
  | [] => true
  | (k, _) :: rest => !(rest.any fun q => q.1 = k) && nodupKeys rest

def tagOKB (t : String) : Bool :=
  (match t.data with
   | [] => true
   | c :: _ => c != '@') && (t != "#text")

mutual

def elemWf : Element → Bool
  | .mk _ attrs _ children => nodupKeys attrs && childrenWf children

def childrenWf : List Element → Bool
  | [] => true
  | c :: cs => tagOKB c.tagOf && elemWf c && childrenWf cs

end

/-- Modelled from the spec: the spec-side normalizer, returning the same
singleton-dict shape as `etree_to_dict`. -/
def normalizeSpec (t : Element) : J :=
  .obj [(t.tagOf, specVal t)]


/-- A leaf XML element holding only text. -/
def leafE (tag text : String) : Element := .mk tag [] (some text) []

/-- The parsed XML of a one-device nvidia-smi report (whitespace-only
text on the structural nodes, as the real report has): normalizing it
produces exactly `gdSingle` under the `nvidia_smi_log` key, with the
`gpu` and `process_info` collections count-1 collapsed. -/
def xmlOneGpu : Element := .mk "nvidia_smi_log" [] (some "\n")
  [leafE "driver_version" "535.104.05",
   leafE "cuda_version" "12.2",
   .mk "gpu" [] (some "\n")
     [leafE "minor_number" "0",
      .mk "fb_memory_usage" [] (some "\n")
        [leafE "total" "8000 MiB", leafE "used" "2000 MiB",
         leafE "free" "6000 MiB"],
      .mk "processes" [] (some "\n")
        [.mk "process_info" [] (some "\n")
          [leafE "pid" "101", leafE "used_memory" "500 MiB"]]]]


/-! ## Claim theorems -/

/-- C1: the claim says the Host Snapshot Extractor re-wraps the
normalizer's cardinality-1-collapsed device value into a one-element
sequence before iterating.  The code does not: on a host with exactly one
device, `gpu_dict["gpu"]` is a bare record, `range(len(...))` ranges over
its key count, and `gpu_dict["gpu"][gpu_idx]` indexes a dict with an int,
raising `KeyError` — extraction dies instead of producing the report the
re-wrapped input (second conjunct) would give.  The re-wrap exists only
for the process list (source lines 92-93), not the device list
(source lines 76-77).  The third conjunct certifies that `gdSingle` is
exactly what the normalizer emits for the parsed one-device XML report,
i.e. the failing shape really is the normalizer's count-1 collapse. -/
theorem c1_device_rewrap_missing :
    extractInfo gdSingle = .error "KeyError"
    ∧ extractInfo gdSingleWrapped = .ok ([("cuda:0", snap0)], [.str "101"])
    ∧ etree_to_dict xmlOneGpu = .obj [("nvidia_smi_log", gdSingle)] :=
  ⟨rfl, rfl, rfl⟩

/-- C2: the claim says a malformed device report yields an empty
HostReport for that host and the poll completes normally for the others.
The code has no extraction-time exception handling, and
`list(executor.map(...))` re-raises, so one host whose report lacks
`minor_number` kills the whole fleet poll (first conjunct) even though the
other host on its own extracts fine (second conjunct). -/
theorem c2_extraction_error_crashes_poll :
    fleetPoll 4 ["A", "B"] (fun h => if h = "A" then envNoMinor else envGood)
      = .error "KeyError"
    ∧ get_host_gpu_info envGood = .ok reportGood :=
  ⟨rfl, rfl⟩

/-- C3, counterexample: the claim promises N result slots for every host
list, but with host Y's report count-1 collapsed (one device) the poll
raises instead of returning two slots. -/
theorem c3_counterexample_poll_crashes :
    isOkE (fleetPoll 1 ["X", "Y"]
      (fun h => if h = "X" then envGood else envSingle)) = false :=
  rfl

/-- C3, amended: provided every host's extraction completes without an
uncaught exception, `fleetPoll` returns exactly one slot per host, in
input order, each slot the host's own report (first conjunct: the result
is the input-ordered map of per-host results; second: the length is N);
and a host whose device query fails contributes an empty report, not a
missing slot (third conjunct). -/
theorem c3_poll_slots_amended (k : Nat) (hosts : List String)
    (env : String → HostEnv)
    (h : ∀ h0 ∈ hosts, isOkE (get_host_gpu_info (env h0)) = true) :
    fleetPoll k hosts env
      = .ok (hosts.map fun h0 => okValue (get_host_gpu_info (env h0)))
    ∧ (hosts.map fun h0 => okValue (get_host_gpu_info (env h0))).length
      = hosts.length
    ∧ ∀ env2 : HostEnv, (do_cmd env2.devCmd).1 = false →
        get_host_gpu_info env2 = .ok [] := by
  refine ⟨?_, by simp, ?_⟩
  · induction hosts with
    | nil => rfl
    | cons h0 rest ih =>
      have hh := h h0 (by simp)
      have hrest := ih (fun x hx => h x (by simp [hx]))
      cases hcase : get_host_gpu_info (env h0) with
      | error e => rw [hcase] at hh; simp [isOkE] at hh
      | ok r => simp [fleetPoll, hcase, hrest, okValue]
  · intro env2 h2
    simp [get_host_gpu_info, h2]

/-- C3, witness: a two-host fleet, the second host unreachable, yields two
ordered slots, the second empty. -/
theorem c3_poll_slots_witness :
    fleetPoll 2 ["X", "Y"]
      (fun h => if h = "X" then envGood else envDown)
      = .ok [reportGood, []] :=
  (c3_poll_slots_amended 2 ["X", "Y"]
    (fun h => if h = "X" then envGood else envDown)
    (by intro h0 hh; fin_cases hh <;> rfl)).1

/-- C5: `do_cmd` returns `(true, combined output)` exactly when the
command exits zero within the timeout, and `(false, "")` — the partial
output on the exception object is never read — on a non-zero exit
(`CalledProcessError`) and on timeout (`TimeoutExpired`). -/
theorem c5_do_cmd_contract (out : String) (c : Nat) (h : c ≠ 0) :
    do_cmd (.completed 0 out) = (true, out)
    ∧ do_cmd (.completed c out) = (false, "")
    ∧ do_cmd .timedOut = (false, "") := by
  refine ⟨rfl, ?_, rfl⟩
  cases c with
  | zero => exact absurd rfl h
  | succ n => rfl

/-- C5, witness: exit code 0 returns the output; exit code 1 discards the
partial output; timeout returns `(false, "")`. -/
theorem c5_do_cmd_witness :
    do_cmd (.completed 0 "some output") = (true, "some output")
    ∧ do_cmd (.completed 1 "some output") = (false, "")
    ∧ do_cmd .timedOut = (false, "") :=
  c5_do_cmd_contract "some output" 1 (by decide)

/-- C8: the claim says a pid absent from the resolver's mapping leaves
that process without a `user` field and raises no error.  In the code,
`process["user"] = pid_user_dict[process["pid"]]` (source line 112) raises
`KeyError`: with two processes (pids 101, 202) and a successful resolution
whose output has one line, pid 202 is absent from the zip-built dict
(first conjunct) and the whole host extraction errors (second conjunct)
instead of degrading. -/
theorem c8_missing_pid_keyerror :
    lookupA (usernames_from_pids (.completed 0 "alice")
      [.str "101", .str "202"]).2 (.str "202") = none
    ∧ get_host_gpu_info envShortLines = .error "KeyError" :=
  ⟨rfl, rfl⟩

/-- C9: the claim says a username line count differing from the requested
pid count is treated as full resolution failure.  The code's positional
`zip` instead silently truncates (one line for two pids: success with a
one-entry dict, first two conjuncts) or silently ignores excess lines
(three lines for two pids: success pairing only the first two, third
conjunct); it never falls back to `(False, {})`. -/
theorem c9_mismatch_not_failure :
    usernames_from_pids (.completed 0 "alice") [.str "101", .str "202"]
      = (true, [(.str "101", "alice")])
    ∧ usernames_from_pids (.completed 0 "alice") [.str "101", .str "202"]
      ≠ (false, [])
    ∧ usernames_from_pids (.completed 0 "alice\nbob\ncarol")
        [.str "101", .str "202"]
      = (true, [(.str "101", "alice"), (.str "202", "bob")]) :=
  ⟨rfl, by decide, rfl⟩

/-! ## Lemmas for the positional-pairing claim -/

theorem dinsertA_fresh (d : List (J × String)) (k : J) (v : String)
    (h : k ∉ d.map Prod.fst) : dinsertA d k v = d ++ [(k, v)] := by
  induction d with
  | nil => rfl
  | cons kv rest ih =>
    simp only [List.map_cons, List.mem_cons] at h
    push_neg at h
    simp only [dinsertA]
    rw [if_neg (by exact fun he => h.1 he.symm), ih h.2]
    rfl

theorem foldl_dinsertA (pairs : List (J × String)) :
    ∀ acc : List (J × String),
      (acc.map Prod.fst ++ pairs.map Prod.fst).Nodup →
      pairs.foldl (fun m kv => dinsertA m kv.1 kv.2) acc = acc ++ pairs := by
  induction pairs with
  | nil => intro acc _; simp
  | cons kv ps ih =>
    intro acc h
    have hk : kv.1 ∉ acc.map Prod.fst := by
      rcases List.nodup_append.mp h with ⟨_, _, hdisj⟩
      intro hmem
      exact hdisj hmem (by simp)
    simp only [List.foldl_cons]
    rw [dinsertA_fresh acc kv.1 kv.2 hk]
    have h2 : ((acc ++ [(kv.1, kv.2)]).map Prod.fst ++ ps.map Prod.fst).Nodup := by
      simpa using h
    rw [ih (acc ++ [(kv.1, kv.2)]) h2]
    simp

theorem pyDictOfPairs_nodup (pairs : List (J × String))
    (h : (pairs.map Prod.fst).Nodup) : pyDictOfPairs pairs = pairs := by
  have := foldl_dinsertA pairs [] (by simpa using h)
  simpa [pyDictOfPairs] using this

theorem zip_keys_sublist (pids : List J) (lines : List String) :
    ((pids.zip lines).map Prod.fst).Sublist pids := by
  induction pids generalizing lines with
  | nil => simp
  | cons p ps ih =>
    cases lines with
    | nil => simp
    | cons l ls => simpa using List.Sublist.cons₂ p (ih ls)

theorem lookupA_zip (pids : List J) (lines : List String)
    (hnd : pids.Nodup) :
    ∀ (i : Nat) (h1 : i < pids.length) (h2 : i < lines.length),
      lookupA (pids.zip lines) (pids.get ⟨i, h1⟩)
        = some (lines.get ⟨i, h2⟩) := by
  induction pids generalizing lines with
  | nil => intro i h1 h2; simp at h1
  | cons p ps ih =>
    intro i h1 h2
    cases lines with
    | nil => simp at h2
    | cons l ls =>
      cases i with
      | zero => simp [lookupA]
      | succ n =>
        have hne : p ≠ ps.get ⟨n, by simpa using h1⟩ := by
          intro he
          exact (List.nodup_cons.mp hnd).1 (he ▸ List.get_mem ps _ _)
        simp only [List.zip_cons_cons, lookupA, List.get]
        rw [if_neg hne]
        exact ih ls (List.nodup_cons.mp hnd).2 n (by simpa using h1)
          (by simpa using h2)

theorem attachProcs_user (d : List (J × String)) :
    ∀ ps qs, attachProcs d ps = .ok qs →
      ∀ q ∈ qs, q.user = lookupA d q.pid := by
  intro ps
  induction ps with
  | nil =>
    intro qs h q hq
    simp only [attachProcs] at h
    cases h
    simp at hq
  | cons p ps ih =>
    intro qs h q hq
    simp only [attachProcs] at h
    cases hl : lookupA d p.pid with
    | none => rw [hl] at h; cases h
    | some u =>
      rw [hl] at h
      cases htl : attachProcs d ps with
      | error e => rw [htl] at h; cases h
      | ok tl =>
        rw [htl] at h
        cases h
        rcases List.mem_cons.mp hq with hq1 | hq2
        · subst hq1; simpa using hl.symm
        · exact ih tl htl q hq2

theorem attachUsers_user (d : List (J × String)) :
    ∀ usage usage2, attachUsers d usage = .ok usage2 →
      ∀ e ∈ usage2, ∀ p ∈ e.2.processes, p.user = lookupA d p.pid := by
  intro usage
  induction usage with
  | nil =>
    intro usage2 h e he
    simp only [attachUsers] at h
    cases h
    simp at he
  | cons ds rest ih =>
    intro usage2 h e he
    simp only [attachUsers] at h
    cases hp : attachProcs d ds.2.processes with
    | error er => rw [hp] at h; cases h
    | ok ps2 =>
      rw [hp] at h
      cases ht : attachUsers d rest with
      | error er => rw [ht] at h; cases h
      | ok tl =>
        rw [ht] at h
        cases h
        rcases List.mem_cons.mp he with he1 | he2
        · subst he1
          intro p hpmem
          exact attachProcs_user d ds.2.processes ps2 hp p hpmem
        · exact ih tl ht e he2

/-- C6: on successful owner resolution the zip-built dict pairs username
line i with requested pid i (first two conjuncts), and the attachment loop
gives every process the dict entry for its own pid, whatever order devices
and processes were extracted in (third conjunct). -/
theorem c6_positional_pairing (out : String) (pids : List J)
    (hnd : pids.Nodup) (i : Nat) (h1 : i < pids.length)
    (h2 : i < (pySplit '\n' out).length) :
    (usernames_from_pids (.completed 0 out) pids).1 = true
    ∧ lookupA (usernames_from_pids (.completed 0 out) pids).2
        (pids.get ⟨i, h1⟩) = some ((pySplit '\n' out).get ⟨i, h2⟩)
    ∧ ∀ d usage usage2, attachUsers d usage = .ok usage2 →
        ∀ e ∈ usage2, ∀ p ∈ e.2.processes, p.user = lookupA d p.pid := by
  refine ⟨rfl, ?_, attachUsers_user⟩
  show lookupA (pyDictOfPairs (pids.zip (pySplit '\n' out)))
    (pids.get ⟨i, h1⟩) = _
  rw [pyDictOfPairs_nodup _ (hnd.sublist (zip_keys_sublist pids _))]
  exact lookupA_zip pids (pySplit '\n' out) hnd i h1 h2

/-- C6, witness: pids `["101","202"]`, output `"alice\nbob"`: the mapping
sends pid 101 to the first line. -/
theorem c6_positional_pairing_witness :
    lookupA (usernames_from_pids (.completed 0 "alice\nbob")
      [.str "101", .str "202"]).2 (.str "101") = some "alice" :=
  (c6_positional_pairing "alice\nbob" [.str "101", .str "202"]
    (by decide) 0 (by decide) (by decide)).2.1


theorem appendProc_inv (gd : J) (usage : Report) (device : String)
    (p : ProcessUsage) (hp : p.user = none)
    (hu : ∀ e ∈ usage, GoodEntry gd e) :
    ∀ e ∈ appendProc usage device p, GoodEntry gd e := by
  intro e he
  rcases List.mem_map.mp he with ⟨e0, he0, rfl⟩
  have h0 := hu e0 he0
  by_cases hd : e0.1 = device
  · simp only [appendProc, hd, if_pos]
    refine ⟨h0.1, h0.2.1, ?_⟩
    intro q hq
    rcases List.mem_append.mp hq with hq1 | hq2
    · exact h0.2.2 q hq1
    · simp only [List.mem_singleton] at hq2
      subst hq2; exact hp
  · simpa [appendProc, hd] using h0

theorem dinsertSnap_inv (gd : J) (usage : Report) (k : String)
    (v : DeviceSnapshot) (hv : GoodEntry gd (k, v))
    (hu : ∀ e ∈ usage, GoodEntry gd e) :
    ∀ e ∈ dinsertSnap usage k v, GoodEntry gd e := by
  induction usage with
  | nil => intro e he; simp only [dinsertSnap, List.mem_singleton] at he; subst he; exact hv
  | cons kv rest ih =>
    intro e he
    simp only [dinsertSnap] at he
    by_cases hk : kv.1 = k
    · rw [if_pos hk] at he
      rcases List.mem_cons.mp he with he1 | he2
      · subst he1
        exact ⟨hv.1, hv.2.1, hv.2.2⟩
      · exact hu e (List.mem_cons_of_mem kv he2)
    · rw [if_neg hk] at he
      rcases List.mem_cons.mp he with he1 | he2
      · subst he1; exact hu kv (by simp)
      · exact ih (fun x hx => hu x (List.mem_cons_of_mem kv hx)) e he2

theorem procEntry_inv (gd : J) (usage : Report) (pids : List J)
    (device : String) (pinfo : J) (u2 : Report) (p2 : List J)
    (h : procEntry usage pids device pinfo = .ok (u2, p2))
    (hu : ∀ e ∈ usage, GoodEntry gd e) : ∀ e ∈ u2, GoodEntry gd e := by
  unfold procEntry at h
  split at h
  · exact Except.noConfusion h
  · split at h
    · exact Except.noConfusion h
    · split at h
      · exact Except.noConfusion h
      · split at h
        · exact Except.noConfusion h
        · rcases Except.ok.injEq _ _ ▸ h with h'
          cases h
          exact appendProc_inv gd usage device _ rfl hu

theorem procList_inv (gd : J) (device : String) :
    ∀ (elems : List J) (usage : Report) (pids : List J) (u2 : Report)
      (p2 : List J), procList usage pids device elems = .ok (u2, p2) →
      (∀ e ∈ usage, GoodEntry gd e) → ∀ e ∈ u2, GoodEntry gd e := by
  intro elems
  induction elems with
  | nil =>
    intro usage pids u2 p2 h hu
    simp only [procList] at h
    cases h
    exact hu
  | cons p ps ih =>
    intro usage pids u2 p2 h hu
    simp only [procList] at h
    cases hp : procEntry usage pids device p with
    | error e => rw [hp] at h; exact Except.noConfusion h
    | ok st =>
      rw [hp] at h
      exact ih st.1 st.2 u2 p2 h (procEntry_inv gd usage pids device p st.1 st.2 hp hu)

theorem procValues_inv (gd : J) (device : String) :
    ∀ (vals : List J) (usage : Report) (pids : List J) (u2 : Report)
      (p2 : List J), procValues usage pids device vals = .ok (u2, p2) →
      (∀ e ∈ usage, GoodEntry gd e) → ∀ e ∈ u2, GoodEntry gd e := by
  intro vals
  induction vals with
  | nil =>
    intro usage pids u2 p2 h hu
    simp only [procValues] at h
    cases h
    exact hu
  | cons v vs ih =>
    intro usage pids u2 p2 h hu
    simp only [procValues] at h
    split at h
    · exact Except.noConfusion h
    next elems hi =>
    split at h
    · exact Except.noConfusion h
    next u3 p3 hl =>
    exact ih u3 p3 u2 p2 h
      (procList_inv gd device elems usage pids u3 p3 hl hu)

theorem extractOne_inv (gd : J) (usage : Report) (pids : List J)
    (gi : J) (u2 : Report) (p2 : List J)
    (h : extractOne gd usage pids gi = .ok (u2, p2))
    (hu : ∀ e ∈ usage, GoodEntry gd e) : ∀ e ∈ u2, GoodEntry gd e := by
  unfold extractOne at h
  split at h
  · exact Except.noConfusion h
  next minor hminor =>
  split at h
  · exact Except.noConfusion h
  next dv hdv =>
  split at h
  · exact Except.noConfusion h
  next cv hcv =>
  split at h
  · exact Except.noConfusion h
  next fb hfb =>
  split at h
  · exact Except.noConfusion h
  next items hitems =>
  split at h
  · exact Except.noConfusion h
  next mem hmem =>
  have hins : ∀ e ∈ dinsertSnap usage ("cuda:" ++ pyStr minor)
      ⟨dv, cv, mem, []⟩, GoodEntry gd e :=
    dinsertSnap_inv gd usage _ _ ⟨by rw [hdv], by rw [hcv], by simp⟩ hu
  split at h
  · exact Except.noConfusion h
  next procs hprocs =>
  split at h
  · exact Except.noConfusion h
  next n hn =>
  split at h
  · cases h
    exact hins
  · split at h
    · exact Except.noConfusion h
    next pi0 hpi0 =>
    exact procValues_inv gd _ _ _ _ u2 p2 h hins

theorem extractDevices_inv (gd gpus : J) :
    ∀ (idxs : List Nat) (usage : Report) (pids : List J) (u2 : Report)
      (p2 : List J), extractDevices gd gpus idxs usage pids = .ok (u2, p2) →
      (∀ e ∈ usage, GoodEntry gd e) → ∀ e ∈ u2, GoodEntry gd e := by
  intro idxs
  induction idxs with
  | nil =>
    intro usage pids u2 p2 h hu
    simp only [extractDevices] at h
    cases h
    exact hu
  | cons i rest ih =>
    intro usage pids u2 p2 h hu
    simp only [extractDevices] at h
    split at h
    · exact Except.noConfusion h
    next gi hg =>
    split at h
    · exact Except.noConfusion h
    next u3 p3 ho =>
    exact ih u3 p3 u2 p2 h
      (extractOne_inv gd usage pids gi u3 p3 ho hu)

theorem extractInfo_inv (gd : J) (usage : Report) (pids : List J)
    (h : extractInfo gd = .ok (usage, pids)) :
    ∀ e ∈ usage, GoodEntry gd e := by
  unfold extractInfo at h
  split at h
  · exact Except.noConfusion h
  next gpus hgpus =>
  split at h
  · exact Except.noConfusion h
  next n hn =>
  exact extractDevices_inv gd gpus (List.range n) [] [] usage pids h (by simp)


/-- C7: when owner resolution fails entirely (`do_cmd` returns failure for
the batched query), `get_host_gpu_info` returns the extracted report
unchanged (source lines 107-108), every process entry still present and
none of them carrying a `user` field. -/
theorem c7_resolver_failure_report_unchanged (env : HostEnv) (gd : J)
    (usage : Report) (pids : List J)
    (h1 : (do_cmd env.devCmd).1 = true)
    (h2 : pySub env.parsed "nvidia_smi_log" = .ok gd)
    (h3 : extractInfo gd = .ok (usage, pids))
    (h4 : (do_cmd (env.ownerCmd pids)).1 = false) :
    get_host_gpu_info env = .ok usage
    ∧ ∀ e ∈ usage, ∀ p ∈ e.2.processes, p.user = none := by
  constructor
  · by_cases hp : pids.length = 0 <;>
      simp [get_host_gpu_info, h1, h2, h3, hp, usernames_from_pids, h4]
  · intro e he p hpmem
    exact (extractInfo_inv gd usage pids h3 e he).2.2 p hpmem

/-- C7, witness: the two-device host with a timed-out owner query yields
exactly the pre-resolution report, users absent. -/
theorem c7_resolver_failure_witness :
    get_host_gpu_info envOwnerDown = .ok [("cuda:0", snap0), ("cuda:1", snap1)] :=
  (c7_resolver_failure_report_unchanged envOwnerDown gdTwo
    [("cuda:0", snap0), ("cuda:1", snap1)] [.str "101", .str "202"]
    rfl rfl rfl rfl).1

/-- C10: every device entry the extractor produces copies its
`driver_version` and `cuda_version` from the host-level fields of the
normalized report (first conjunct), hence any two device entries of one
HostReport carry identical version values (second conjunct). -/
theorem c10_uniform_versions (gd : J) (usage : Report) (pids : List J)
    (h : extractInfo gd = .ok (usage, pids)) :
    (∀ e ∈ usage, Except.ok e.2.driver_version = pySub gd "driver_version"
       ∧ Except.ok e.2.cuda_version = pySub gd "cuda_version")
    ∧ ∀ e1 ∈ usage, ∀ e2 ∈ usage,
        e1.2.driver_version = e2.2.driver_version
        ∧ e1.2.cuda_version = e2.2.cuda_version := by
  have hinv := extractInfo_inv gd usage pids h
  refine ⟨fun e he => ⟨(hinv e he).1, (hinv e he).2.1⟩, ?_⟩
  intro e1 he1 e2 he2
  constructor
  · have ha := (hinv e1 he1).1
    have hb := (hinv e2 he2).1
    rw [← hb] at ha
    exact (Except.ok.injEq _ _ ▸ ha : _)
  · have ha := (hinv e1 he1).2.1
    have hb := (hinv e2 he2).2.1
    rw [← hb] at ha
    exact (Except.ok.injEq _ _ ▸ ha : _)

/-- C10, witness: in the two-device extraction both devices carry the same
host-level versions. -/
theorem c10_uniform_versions_witness :
    snap0.driver_version = snap1.driver_version
    ∧ snap0.cuda_version = snap1.cuda_version :=
  (c10_uniform_versions gdTwo [("cuda:0", snap0), ("cuda:1", snap1)]
    [.str "101", .str "202"] rfl).2
    ("cuda:0", snap0) (by simp) ("cuda:1", snap1) (by simp)
/-! ### Refinement: `etree_to_dict` implements the spec's normalizer -/

theorem Element.indOn {motive : Element → Prop}
    (h : ∀ tag attrs text children,
      (∀ c ∈ children, motive c) → motive (.mk tag attrs text children)) :
    ∀ t, motive t
  | .mk tag attrs text children =>
    h tag attrs text children fun c hc => Element.indOn h c
termination_by t => sizeOf t
decreasing_by
  simp only [Element.mk.sizeOf_spec]
  have := List.sizeOf_lt_of_mem hc
  omega

theorem grp_nil : grp [] = [] := by
  simp [grp]

theorem grp_cons (k : String) (v : J) (ps : List (String × J)) :
    grp ((k, v) :: ps)
      = (k, v :: (ps.filter fun q => q.1 = k).map Prod.snd) ::
          grp (ps.filter fun q => q.1 ≠ k) := by
  rw [grp]

theorem grp_append_single (k : String) (v : J) :
    ∀ (n : Nat) (ps : List (String × J)), ps.length ≤ n →
      grp (ps ++ [(k, v)]) = dappend (grp ps) k v := by
  intro n
  induction n with
  | zero =>
    intro ps h
    have hnil : ps = [] := List.eq_nil_of_length_eq_zero (Nat.le_zero.mp h)
    subst hnil
    simp [grp_nil, grp_cons, dappend]
  | succ n ih =>
    intro ps h
    cases ps with
    | nil => simp [grp_nil, grp_cons, dappend]
    | cons p ps' =>
      obtain ⟨k0, v0⟩ := p
      rw [List.cons_append, grp_cons, grp_cons, List.filter_append,
        List.filter_append]
      by_cases hk : k0 = k
      · subst hk
        have h1 : (([(k0, v)] : List (String × J)).filter fun q => q.1 = k0)
            = [(k0, v)] := by simp
        have h2 : (([(k0, v)] : List (String × J)).filter fun q => q.1 ≠ k0)
            = [] := by simp
        rw [h1, h2, List.append_nil]
        simp [dappend]
      · have h1 : (([(k, v)] : List (String × J)).filter fun q => q.1 = k0)
            = [] := by
          simp only [List.filter_cons, List.filter_nil, decide_eq_true_eq]
          rw [if_neg (fun he => hk he.symm)]
        have h2 : (([(k, v)] : List (String × J)).filter fun q => q.1 ≠ k0)
            = [(k, v)] := by
          simp only [List.filter_cons, List.filter_nil]
          rw [if_pos (by simpa using fun he => hk he.symm)]
        rw [h1, h2, List.append_nil]
        rw [ih (ps'.filter fun q => q.1 ≠ k0)
          (Nat.le_trans (List.length_filter_le _ _) (Nat.le_of_succ_le_succ h))]
        simp only [dappend]
        rw [if_neg hk]

theorem groupPairs_eq_grp (ps : List (String × J)) : groupPairs ps = grp ps := by
  induction ps using List.reverseRecOn with
  | nil => simp [groupPairs, grp_nil]
  | append_singleton ps x ih =>
    obtain ⟨k, v⟩ := x
    unfold groupPairs at ih ⊢
    rw [List.foldl_append, List.foldl_cons, List.foldl_nil, ih,
      grp_append_single k v ps.length ps (Nat.le_refl _)]

theorem grp_keys_sub :
    ∀ (n : Nat) (ps : List (String × J)), ps.length ≤ n →
      ∀ g ∈ grp ps, g.1 ∈ ps.map Prod.fst := by
  intro n
  induction n with
  | zero =>
    intro ps h
    have hnil : ps = [] := List.eq_nil_of_length_eq_zero (Nat.le_zero.mp h)
    subst hnil
    simp [grp_nil]
  | succ n ih =>
    intro ps h g hg
    cases ps with
    | nil => rw [grp_nil] at hg; simp at hg
    | cons p ps' =>
      obtain ⟨k0, v0⟩ := p
      rw [grp_cons] at hg
      rcases List.mem_cons.mp hg with hg1 | hg2
      · subst hg1; simp
      · have := ih (ps'.filter fun q => q.1 ≠ k0)
          (Nat.le_trans (List.length_filter_le _ _) (Nat.le_of_succ_le_succ h))
          g hg2
        rcases List.mem_map.mp this with ⟨q, hq, hq1⟩
        have hq' : q ∈ ps' := List.mem_of_mem_filter hq
        exact List.mem_map.mpr ⟨q, List.mem_cons_of_mem _ hq', hq1⟩

theorem band_true {a b : Bool} (h : (a && b) = true) :
    a = true ∧ b = true := by
  cases a <;> cases b <;> simp_all

theorem string_data_inj {a b : String} (h : a.data = b.data) : a = b := by
  cases a; cases b; exact congrArg String.mk h

theorem amp_append_ne {κ k : String} (h : tagOKB κ = true) :
    κ ≠ "@" ++ k := by
  intro he
  rcases band_true h with ⟨h1, _⟩
  have hd := congrArg String.data he
  rw [String.data_append] at hd
  cases hκ : κ.data with
  | nil => rw [hκ] at hd; exact List.noConfusion hd
  | cons c cs =>
    rw [hκ] at h1 hd
    have : c = '@' := by
      have := List.head_eq_of_cons_eq hd
      simpa using this
    rw [this] at h1
    simp at h1

theorem tagOK_ne_text {κ : String} (h : tagOKB κ = true) : κ ≠ "#text" := by
  rcases band_true h with ⟨_, h2⟩
  simpa using h2

theorem amp_ne_text (k : String) : "@" ++ k ≠ "#text" := by
  intro he
  have hd := congrArg String.data he
  rw [String.data_append] at hd
  have : '@' = '#' := by
    have := List.head_eq_of_cons_eq hd
    simpa using this
  simp at this

theorem amp_append_inj {a b : String} (h : "@" ++ a = "@" ++ b) : a = b := by
  have h2 := congrArg String.data h
  rw [String.data_append, String.data_append] at h2
  exact string_data_inj (by simpa using h2)

theorem lookup_none_of_forall {α : Type} (l : List (String × α)) (k : String)
    (h : ∀ p ∈ l, p.1 ≠ k) : List.lookup k l = none := by
  induction l with
  | nil => rfl
  | cons p rest ih =>
    have hb : (k == p.1) = false :=
      beq_eq_false_iff_ne.mpr fun he => h p (by simp) he.symm
    simp only [List.lookup, hb]
    exact ih fun q hq => h q (List.mem_cons_of_mem p hq)

theorem lookup_append_none {α : Type} (l1 l2 : List (String × α)) (k : String)
    (h1 : List.lookup k l1 = none) (h2 : List.lookup k l2 = none) :
    List.lookup k (l1 ++ l2) = none := by
  induction l1 with
  | nil => simpa using h2
  | cons p rest ih =>
    simp only [List.lookup, List.cons_append] at h1 ⊢
    cases hb : (k == p.1) with
    | true => simp only [hb] at h1; exact Option.noConfusion h1
    | false =>
      simp only [hb] at h1 ⊢
      exact ih h1

theorem objAssign_append (fs : List (String × J)) (k : String) (v : J)
    (h : List.lookup k fs = none) :
    objAssign (.obj fs) k v = .obj (fs ++ [(k, v)]) := by
  simp [objAssign, h]

theorem objUpdate_append :
    ∀ (news fs : List (String × J)),
      (∀ p ∈ news, List.lookup p.1 fs = none) →
      (news.map Prod.fst).Nodup →
      objUpdate (.obj fs) news = .obj (fs ++ news) := by
  intro news
  induction news with
  | nil => intro fs _ _; simp [objUpdate]
  | cons p rest ih =>
    intro fs hfresh hnd
    obtain ⟨k, v⟩ := p
    simp only [objUpdate, List.foldl_cons]
    rw [show objAssign (J.obj fs) k v = .obj (fs ++ [(k, v)]) from
      objAssign_append fs k v (hfresh (k, v) (by simp))]
    rw [List.map_cons, List.nodup_cons] at hnd
    have hnd' := hnd
    have : objUpdate (.obj (fs ++ [(k, v)])) rest = .obj ((fs ++ [(k, v)]) ++ rest) := by
      apply ih
      · intro q hq
        apply lookup_append_none
        · exact hfresh q (List.mem_cons_of_mem _ hq)
        · apply lookup_none_of_forall
          intro r hr
          simp only [List.mem_singleton] at hr
          subst hr
          intro he
          exact hnd'.1 (he ▸ List.mem_map.mpr ⟨q, hq, rfl⟩)
      · exact hnd'.2
    simpa [objUpdate] using this

theorem collapse1_eq (vs : List J) :
    collapse1 vs = if vs.length = 1 then vs.headI else J.arr vs := by
  cases vs with
  | nil => simp [collapse1]
  | cons v tl =>
    cases tl with
    | nil => simp [collapse1]
    | cons w tl2 => simp [collapse1]

theorem nodupKeys_spec :
    ∀ attrs : List (String × String), nodupKeys attrs = true →
      (attrs.map Prod.fst).Nodup := by
  intro attrs
  induction attrs with
  | nil => intro _; simp
  | cons p rest ih =>
    obtain ⟨k, v⟩ := p
    intro h
    have h' : (!(rest.any fun q => q.1 = k) && nodupKeys rest) = true := by
      simpa only [nodupKeys] using h
    rcases band_true h' with ⟨h1, h2⟩
    simp only [List.map_cons, List.nodup_cons]
    refine ⟨?_, ih h2⟩
    intro hmem
    rcases List.mem_map.mp hmem with ⟨q, hq, hq1⟩
    have hany : (rest.any fun q => q.1 = k) = true :=
      List.any_eq_true.mpr ⟨q, hq, by simp [hq1]⟩
    rw [hany] at h1
    simp at h1

theorem childrenWf_spec :
    ∀ cs : List Element, childrenWf cs = true →
      ∀ c ∈ cs, tagOKB c.tagOf = true ∧ elemWf c = true := by
  intro cs
  induction cs with
  | nil => intro _ c hc; simp at hc
  | cons c0 rest ih =>
    intro h c hc
    have h' : (tagOKB c0.tagOf && elemWf c0 && childrenWf rest) = true := by
      simpa [childrenWf] using h
    rcases band_true h' with ⟨h1, h2⟩
    rcases band_true h1 with ⟨h1a, h1b⟩
    rcases List.mem_cons.mp hc with hc1 | hc2
    · subst hc1; exact ⟨h1a, h1b⟩
    · exact ih h2 c hc2

theorem specChildren_tags (cs : List Element) :
    (specChildren cs).map Prod.fst = cs.map Element.tagOf := by
  induction cs with
  | nil => rfl
  | cons c rest ih => simp [specChildren, ih]

theorem e2dChildren_eq_spec :
    ∀ cs : List Element,
      (∀ c ∈ cs, elemWf c = true → e2dVal c = specVal c) →
      childrenWf cs = true →
      e2dChildren cs = specChildren cs := by
  intro cs
  induction cs with
  | nil => intro _ _; rfl
  | cons c rest ih =>
    intro hih hwf
    have h' : (tagOKB c.tagOf && elemWf c && childrenWf rest) = true := by
      simpa [childrenWf] using hwf
    rcases band_true h' with ⟨h1, h2⟩
    rcases band_true h1 with ⟨_, h1b⟩
    simp only [e2dChildren, specChildren]
    rw [hih c (by simp) h1b, ih (fun d hd => hih d (List.mem_cons_of_mem c hd)) h2]

theorem text_step (GA : List (String × J)) (text : Option String)
    (hfresh : List.lookup "#text" GA = none) :
    (if textTruthy text then
       (if pyStrip (text.getD "") ≠ "" then
          objAssign (.obj GA) "#text" (.str (pyStrip (text.getD "")))
        else .obj GA)
     else .obj GA)
    = .obj (GA ++ textPart text) := by
  cases text with
  | none => simp [textTruthy, textPart]
  | some s =>
    by_cases hs : s = ""
    · subst hs; simp [textTruthy, textPart]
    · simp only [textTruthy, Option.getD, textPart]
      by_cases ht : pyStrip s = ""
      · simp [hs, ht]
      · simp [hs, ht, objAssign_append GA "#text" _ hfresh]

theorem e2dVal_eq_spec : ∀ t : Element, elemWf t = true → e2dVal t = specVal t := by
  intro t
  induction t using Element.indOn with
  | h tag attrs text children ih =>
    intro hwf
    rcases band_true (show (nodupKeys attrs && childrenWf children) = true by
      simpa only [elemWf] using hwf) with ⟨hnodup, hcwf⟩
    have hch : e2dChildren children = specChildren children :=
      e2dChildren_eq_spec children ih hcwf
    have hCF : collapseGroups (groupPairs (e2dChildren children))
        = (grp (specChildren children)).map
            (fun g => (g.1, if g.2.length = 1 then g.2.headI else J.arr g.2)) := by
      rw [hch, groupPairs_eq_grp]
      unfold collapseGroups
      exact List.map_congr_left fun g _ => by rw [collapse1_eq]
    set G := (grp (specChildren children)).map
      (fun g => (g.1, if g.2.length = 1 then g.2.headI else J.arr g.2)) with hGdef
    set AT := attrs.map (fun kv => ("@" ++ kv.1, J.str kv.2)) with hATdef
    have hGkeys : ∀ p ∈ G, tagOKB p.1 = true := by
      intro p hp
      rcases List.mem_map.mp hp with ⟨g, hg, rfl⟩
      have h1 : g.1 ∈ (specChildren children).map Prod.fst :=
        grp_keys_sub (specChildren children).length _ (Nat.le_refl _) g hg
      rw [specChildren_tags] at h1
      rcases List.mem_map.mp h1 with ⟨c, hc, htag⟩
      exact htag ▸ (childrenWf_spec children hcwf c hc).1
    have hfreshAT : ∀ p ∈ AT, List.lookup p.1 G = none := by
      intro p hp
      rcases List.mem_map.mp hp with ⟨kv, _, rfl⟩
      exact lookup_none_of_forall _ _ fun q hq => amp_append_ne (hGkeys q hq)
    have hndAT : (AT.map Prod.fst).Nodup := by
      have h0 := nodupKeys_spec attrs hnodup
      have he : AT.map Prod.fst
          = (attrs.map Prod.fst).map (fun s => "@" ++ s) := by
        simp [hATdef, List.map_map, Function.comp]
      rw [he]
      exact h0.map fun a b hab => amp_append_inj hab
    have hupd : objUpdate (.obj G) AT = .obj (G ++ AT) :=
      objUpdate_append AT G hfreshAT hndAT
    have hfreshText : List.lookup "#text" (G ++ AT) = none := by
      apply lookup_append_none
      · exact lookup_none_of_forall _ _ fun q hq => tagOK_ne_text (hGkeys q hq)
      · apply lookup_none_of_forall
        intro q hq
        rcases List.mem_map.mp hq with ⟨kv, _, rfl⟩
        exact amp_ne_text kv.1
    cases children with
    | nil =>
      cases attrs with
      | nil =>
        simp only [e2dVal, specVal]
        cases text with
        | none => rfl
        | some s =>
          by_cases hs : s = ""
          · subst hs; rfl
          · simp [textTruthy, hs]
      | cons a as =>
        have hGnil : G = [] := by
          simp [hGdef, specChildren, grp_nil]
        show (if textTruthy text then
                (if pyStrip (text.getD "") ≠ "" then
                   objAssign (objUpdate (J.obj []) AT) "#text"
                     (.str (pyStrip (text.getD "")))
                 else objUpdate (J.obj []) AT)
              else objUpdate (J.obj []) AT)
          = .obj (G ++ AT ++ textPart text)
        rw [show objUpdate (J.obj []) AT = J.obj ([] ++ AT) from
          hGnil ▸ hupd]
        rw [text_step ([] ++ AT) text (by simpa [hGnil] using hfreshText)]
        rw [hGnil]
    | cons c cs =>
      have hd1 : J.obj (collapseGroups (groupPairs (e2dChildren (c :: cs))))
          = .obj G := by rw [hCF]
      cases attrs with
      | nil =>
        show (if textTruthy text then
                (if pyStrip (text.getD "") ≠ "" then
                   objAssign
                     (J.obj (collapseGroups (groupPairs (e2dChildren (c :: cs)))))
                     "#text" (.str (pyStrip (text.getD "")))
                 else J.obj (collapseGroups (groupPairs (e2dChildren (c :: cs)))))
              else J.obj (collapseGroups (groupPairs (e2dChildren (c :: cs)))))
          = .obj (G ++ AT ++ textPart text)
        have hAT : AT = [] := by simp [hATdef]
        rw [show J.obj (collapseGroups (groupPairs (e2dChildren (c :: cs))))
            = J.obj (G ++ AT) by rw [hd1, hAT, List.append_nil]]
        rw [text_step (G ++ AT) text hfreshText]
      | cons a as =>
        show (if textTruthy text then
                (if pyStrip (text.getD "") ≠ "" then
                   objAssign
                     (objUpdate
                       (J.obj (collapseGroups (groupPairs (e2dChildren (c :: cs)))))
                       AT)
                     "#text" (.str (pyStrip (text.getD "")))
                 else objUpdate
                   (J.obj (collapseGroups (groupPairs (e2dChildren (c :: cs))))) AT)
              else objUpdate
                (J.obj (collapseGroups (groupPairs (e2dChildren (c :: cs))))) AT)
          = .obj (G ++ AT ++ textPart text)
        rw [hd1, hupd]
        rw [text_step (G ++ AT) text hfreshText]

/-- C4: the translated `etree_to_dict` coincides, on every tree an XML
parser can produce (distinct attribute names; tag names free of the
reserved `'@'`/`'#text'` shapes), with the spec-worded normalizer:
recursive normalization, grouping by tag in first-seen order with the
count-1 collapse, `'@'`-prefixed attribute merge, bare-scalar leaf text,
and the `'#text'` reserved key. -/
theorem c4_normalizer_refines_spec (t : Element) (h : elemWf t = true) :
    etree_to_dict t = normalizeSpec t := by
  unfold etree_to_dict normalizeSpec
  rw [e2dVal_eq_spec t h]

/-- C4, witness: a concrete three-child element with an attribute, mixed
text, and a repeated tag normalizes identically under both definitions. -/
theorem c4_normalizer_witness :
    etree_to_dict (.mk "root" [("a", "1")] (some " hi ")
      [.mk "x" [] (some "leaf") [], .mk "x" [] none [], .mk "y" [] none []])
    = normalizeSpec (.mk "root" [("a", "1")] (some " hi ")
      [.mk "x" [] (some "leaf") [], .mk "x" [] none [], .mk "y" [] none []]) :=
  c4_normalizer_refines_spec _ (by rfl)
